import Mathlib

set_option linter.unusedVariables false

/-! Shallow embedding of the text-engine core of src/Bolt.cpp: the row
store, the render mapper (tab expansion), the highlight classifier, the
edit operations, file serialization and the incremental search
callback. Text is modelled as `List Char` (the code is byte-oriented
and ASCII-centric). C `int` values that can go negative (cursor
coordinates, search indices) are modelled as `Int`. -/

/-- enum editorHighlight; `hstring` is HL_STRING, `hmatch` is HL_MATCH. -/
inductive HL where
  | normal
  | comment
  | keyword1
  | keyword2
  | hstring
  | number
  | hmatch
deriving DecidableEq

/-- struct EditorSyntax (src/Bolt.cpp:105). `flags` is carried although
editorUpdateSyntax never reads it. -/
structure EditorSyntax where
  filetype : List Char
  extensions : List (List Char)
  keywords : List (List Char)
  singleline_comment_start : List Char
  flags : Nat
deriving DecidableEq

/-- struct ERow (src/Bolt.cpp:71). -/
structure ERow where
  chars : List Char
  render : List Char
  hl : List HL
deriving DecidableEq

instance : Inhabited ERow := ⟨⟨[], [], []⟩⟩

/-- The fields of struct editorConfig (src/Bolt.cpp:81) the core reads or
writes (screen size, filename, status message and termios belong to the
terminal collaborators and are omitted). `syn` is the syntax pointer. -/
structure EditorConfig where
  cx : Int
  cy : Int
  rx : Int
  rowoff : Int
  coloff : Int
  dirty : Bool
  syn : Option EditorSyntax
  rows : List ERow
deriving DecidableEq

def emptyEditor : EditorConfig :=
  { cx := 0, cy := 0, rx := 0, rowoff := 0, coloff := 0, dirty := false,
    syn := none, rows := [] }

/-- enum editorKeys values used by the find callback. -/
def ARROW_LEFT : Int := 1000

def ARROW_RIGHT : Int := 1001

def ARROW_UP : Int := 1002

def ARROW_DOWN : Int := 1003

/-- std::vector / std::string insert(begin + n, a); every caller in the
code guards n ≤ length first. -/
def listInsertIdx (l : List α) (n : Nat) (a : α) : List α :=
  match n, l with
  | 0, l => a :: l
  | _ + 1, [] => []
  | n + 1, x :: xs => x :: listInsertIdx xs n a

/-- std::vector / std::string erase(begin + n); callers guard n < length. -/
def listEraseIdx (l : List α) (n : Nat) : List α :=
  match n, l with
  | _, [] => []
  | 0, _ :: xs => xs
  | n + 1, x :: xs => x :: listEraseIdx xs n

/-- Write through index n (reference assignment E.rows[n] = ...). -/
def listSet (l : List α) (n : Nat) (a : α) : List α :=
  match n, l with
  | _, [] => []
  | 0, _ :: xs => a :: xs
  | n + 1, x :: xs => x :: listSet xs n a

/-- C isspace in the C locale. -/
def c_isspace (c : Char) : Bool :=
  c = ' ' || c = '\t' || c = '\n' || c = '\x0b' || c = '\x0c' || c = '\r'

/-- is_separator (src/Bolt.cpp:334). -/
def is_separator (c : Char) : Bool :=
  c_isspace c || c = '\x00' || (",.()+-/*=~%<>[];".toList.contains c)

def KILO_TAB_STOP : Nat := 8

/-- Rendered columns one tab adds at render length `len`: the
`render << ' '; while (tellp() % KILO_TAB_STOP != 0) render << ' ';`
loop of editorUpdateRow appends one space and then pads to the next
multiple of KILO_TAB_STOP, i.e. exactly `KILO_TAB_STOP - len % KILO_TAB_STOP`
spaces in total. -/
def tabPad (len : Nat) : Nat := KILO_TAB_STOP - len % KILO_TAB_STOP

/-- The render-building loop of editorUpdateRow (src/Bolt.cpp:497);
`len` is the current output length (render.tellp()). -/
def renderLoop (chars : List Char) (len : Nat) : List Char :=
  match chars with
  | [] => []
  | c :: rest =>
    if c = '\t' then
      List.replicate (tabPad len) ' ' ++ renderLoop rest (len + tabPad len)
    else c :: renderLoop rest (len + 1)

/-- The loop of editorRowCxToRx, with `rx` accumulated. -/
def cxToRxLoop (chars : List Char) (cx : Nat) (rx : Nat) : Nat :=
  match cx with
  | 0 => rx
  | cx + 1 =>
    match chars with
    | [] => rx
    | c :: rest =>
      if c = '\t' then
        cxToRxLoop rest cx (rx + (KILO_TAB_STOP - 1) - rx % KILO_TAB_STOP + 1)
      else cxToRxLoop rest cx (rx + 1)

/-- editorRowCxToRx (src/Bolt.cpp:479). Callers keep cx ≤ chars length
(the C loop would read past the string otherwise). -/
def editorRowCxToRx (row : ERow) (cx : Nat) : Nat :=
  cxToRxLoop row.chars cx 0

/-- The trailing-pipe convention of the keyword loop (src/Bolt.cpp:410):
a keyword written "kw|" is stripped and classified HL_KEYWORD2,
otherwise HL_KEYWORD1. -/
def kwSplit (kw : List Char) : List Char × HL :=
  if kw.getLast? = some '|' then (kw.dropLast, HL.keyword2) else (kw, HL.keyword1)

/-- The keyword loop of editorUpdateSyntax (src/Bolt.cpp:407): the first
keyword (in list order) whose stripped text occurs at the current
position with the row end or a separator immediately after it; yields
the stripped length and the keyword's class. -/
def findKeyword (kws : List (List Char)) (suff : List Char) : Option (Nat × HL) :=
  match kws with
  | [] => none
  | kw :: rest =>
    if (kwSplit kw).1.length ≤ suff.length ∧
        suff.take (kwSplit kw).1.length = (kwSplit kw).1 ∧
        ((kwSplit kw).1.length = suff.length ∨
          is_separator (suff.getD (kwSplit kw).1.length ' ')) then
      some ((kwSplit kw).1.length, (kwSplit kw).2)
    else findKeyword rest suff

/-- The single-line-comment test at the current position
(src/Bolt.cpp:357): a syntax is selected, its marker is non-empty, we
are not inside a string, and the marker occurs at the position. -/
def commentHere (syn : Option EditorSyntax) (in_string : Option Char)
    (suff : List Char) : Bool :=
  match syn with
  | none => false
  | some s =>
    !s.singleline_comment_start.isEmpty && in_string.isNone &&
      decide (s.singleline_comment_start.length ≤ suff.length) &&
      decide (suff.take s.singleline_comment_start.length = s.singleline_comment_start)

/-- The while loop of editorUpdateSyntax (src/Bolt.cpp:354) over the
suffix of the render starting at the current position. `prev_sep`,
`in_string` carry the loop variables; `prev_hl` is the class written at
the previous position (hl[i-1], HL_NORMAL at i = 0). `fuel` bounds the
iteration count; `fuel = suff.length` always suffices because every
step consumes at least one character: a zero-length keyword match
consumes none in the C loop, but its immediately following iteration
then necessarily takes the default branch (prev_sep is false and every
earlier branch repeats its failed test), so that pair of iterations is
one step here, leaving the character at its initialization value
HL_NORMAL. Out of fuel — unreachable from editorUpdateSyntax — the
remaining characters keep that initialization value. -/
def syntaxLoop (syn : Option EditorSyntax) (kws : List (List Char))
    (fuel : Nat) (prev_sep : Bool) (in_string : Option Char) (prev_hl : HL)
    (suff : List Char) : List HL :=
  match fuel, suff with
  | 0, suff => List.replicate suff.length HL.normal
  | _ + 1, [] => []
  | fuel + 1, c :: rest =>
      if commentHere syn in_string (c :: rest) then
        List.replicate (c :: rest).length HL.comment
      else
        match in_string with
        | some q =>
          HL.hstring ::
            syntaxLoop syn kws fuel true (if c = q then none else some q) HL.hstring rest
        | none =>
          if c = '"' ∨ c = '\'' then
            HL.hstring :: syntaxLoop syn kws fuel prev_sep (some c) HL.hstring rest
          else if (c.isDigit ∧ (prev_sep ∨ prev_hl = HL.number)) ∨
              (c = '.' ∧ prev_hl = HL.number) then
            HL.number :: syntaxLoop syn kws fuel false none HL.number rest
          else
            match (if prev_sep then findKeyword kws (c :: rest) else none) with
            | some (klen, color) =>
              if klen = 0 then
                HL.normal :: syntaxLoop syn kws fuel (is_separator c) none HL.normal rest
              else
                List.replicate klen color ++
                  syntaxLoop syn kws fuel false none color ((c :: rest).drop klen)
            | none =>
              HL.normal :: syntaxLoop syn kws fuel (is_separator c) none HL.normal rest

/-- editorUpdateSyntax (src/Bolt.cpp:339): classify a row's rendered
text; with no selected syntax the keyword list is empty. -/
def editorUpdateSyntax (syn : Option EditorSyntax) (render : List Char) : List HL :=
  syntaxLoop syn (match syn with | some s => s.keywords | none => [])
    render.length true none HL.normal render

/-- editorUpdateRow (src/Bolt.cpp:497): rebuild the render from chars,
then re-run the classifier on it. -/
def editorUpdateRow (syn : Option EditorSyntax) (row : ERow) : ERow :=
  let render := renderLoop row.chars 0
  { row with render := render, hl := editorUpdateSyntax syn render }

/-- A fresh ERow built from raw text, as editorInsertRow does. -/
def mkRow (syn : Option EditorSyntax) (s : List Char) : ERow :=
  editorUpdateRow syn { chars := s, render := [], hl := [] }

/-- editorInsertRow (src/Bolt.cpp:524). -/
def editorInsertRow (E : EditorConfig) (at' : Int) (s : List Char) : EditorConfig :=
  if at' < 0 ∨ at' > (E.rows.length : Int) then E
  else
    { E with rows := listInsertIdx E.rows at'.toNat (mkRow E.syn s),
             dirty := true }

/-- editorDelRow (src/Bolt.cpp:540). -/
def editorDelRow (E : EditorConfig) (at' : Int) : EditorConfig :=
  if at' < 0 ∨ at' ≥ (E.rows.length : Int) then E
  else { E with rows := listEraseIdx E.rows at'.toNat, dirty := true }

/-- editorRowInsertChar (src/Bolt.cpp:551) applied to E.rows[i] (the C
function mutates the row through a reference and sets E.dirty). -/
def editorRowInsertChar (E : EditorConfig) (i : Nat) (at' : Int) (c : Char) :
    EditorConfig :=
  let row := E.rows.getD i default
  let at2 := if at' < 0 ∨ at' > (row.chars.length : Int) then row.chars.length
             else at'.toNat
  let row2 := editorUpdateRow E.syn { row with chars := listInsertIdx row.chars at2 c }
  { E with rows := listSet E.rows i row2, dirty := true }

/-- editorRowAppendString (src/Bolt.cpp:565) applied to E.rows[i]. -/
def editorRowAppendString (E : EditorConfig) (i : Nat) (s : List Char) : EditorConfig :=
  let row := E.rows.getD i default
  let row2 := editorUpdateRow E.syn { row with chars := row.chars ++ s }
  { E with rows := listSet E.rows i row2, dirty := true }

/-- editorRowDelChar (src/Bolt.cpp:575) applied to E.rows[i]. -/
def editorRowDelChar (E : EditorConfig) (i : Nat) (at' : Int) : EditorConfig :=
  let row := E.rows.getD i default
  if at' < 0 ∨ at' ≥ (row.chars.length : Int) then E
  else
    let row2 := editorUpdateRow E.syn { row with chars := listEraseIdx row.chars at'.toNat }
    { E with rows := listSet E.rows i row2, dirty := true }

/-- editorInsertChar (src/Bolt.cpp:590). -/
def editorInsertChar (E : EditorConfig) (c : Char) : EditorConfig :=
  let E1 := if E.cy = (E.rows.length : Int) then
              editorInsertRow E (E.rows.length : Int) []
            else E
  let E2 := editorRowInsertChar E1 E1.cy.toNat E1.cx c
  { E2 with cx := E2.cx + 1 }

/-- editorInsertNewline (src/Bolt.cpp:606). -/
def editorInsertNewline (E : EditorConfig) : EditorConfig :=
  let E1 :=
    if E.cx = 0 then editorInsertRow E E.cy []
    else
      let row := E.rows.getD E.cy.toNat default
      let splitText := row.chars.drop E.cx.toNat
      let row2 := editorUpdateRow E.syn { row with chars := row.chars.take E.cx.toNat }
      let E' := { E with rows := listSet E.rows E.cy.toNat row2 }
      editorInsertRow E' (E.cy + 1) splitText
  { E1 with cy := E1.cy + 1, cx := 0 }

/-- editorDelChar (src/Bolt.cpp:633). -/
def editorDelChar (E : EditorConfig) : EditorConfig :=
  if E.cy = (E.rows.length : Int) then E
  else if E.cx = 0 ∧ E.cy = 0 then E
  else
    let row := E.rows.getD E.cy.toNat default
    if E.cx > 0 then
      let E1 := editorRowDelChar E E.cy.toNat (E.cx - 1)
      { E1 with cx := E1.cx - 1 }
    else
      let E1 := { E with cx := ((E.rows.getD (E.cy - 1).toNat default).chars.length : Int) }
      let E2 := editorRowAppendString E1 (E.cy - 1).toNat row.chars
      let E3 := editorDelRow E2 E.cy
      { E3 with cy := E3.cy - 1 }

/-- editorRowsToString (src/Bolt.cpp:661): every row's chars followed by
a newline. -/
def editorRowsToString (rows : List ERow) : List Char :=
  match rows with
  | [] => []
  | r :: rest => r.chars ++ '\n' :: editorRowsToString rest

/-- The carriage-return strip of editorOpen's read loop (src/Bolt.cpp:689). -/
def stripCR (line : List Char) : List Char :=
  if line.getLast? = some '\r' then line.dropLast else line

/-- editorOpen (src/Bolt.cpp:674) with the file I/O replaced by the list
of newline-stripped lines std::getline would produce: each line is
CR-stripped and appended with editorInsertRow at index E.rows.size();
finally dirty is cleared. -/
def editorOpenLines (E : EditorConfig) (lines : List (List Char)) : EditorConfig :=
  let E' := lines.foldl
    (fun s line => editorInsertRow s (s.rows.length : Int) (stripCR line)) E
  { E' with dirty := false }

/-- Following the claim's words, for the round-trip comparison: the lines
joined by a newline with one trailing newline (an empty document
serializes to nothing). -/
def joinedWithNL (lines : List (List Char)) : List Char :=
  match lines with
  | [] => []
  | l :: rest => l ++ '\n' :: joinedWithNL rest

/-- The static locals of editorFindCallback (src/Bolt.cpp:732). -/
structure FindState where
  last_match : Int
  direction : Int
  saved_hl_line : Int
  saved_hl : Option (List HL)
deriving DecidableEq

/-- Their values before the first call. -/
def initialFindState : FindState :=
  { last_match := -1, direction := 1, saved_hl_line := 0, saved_hl := none }

/-- std::string::find(query): index of the first occurrence of query as
a substring, `i` positions already consumed. -/
def strFindLoop (hay query : List Char) (i : Nat) : Option Nat :=
  if query.length ≤ hay.length ∧ hay.take query.length = query then some i
  else
    match hay with
    | [] => none
    | _ :: rest => strFindLoop rest query (i + 1)

def strFind (hay query : List Char) : Option Nat := strFindLoop hay query 0

/-- hl.assign(render.size(), HL_NORMAL) followed by
std::fill(hl.begin() + pos, hl.begin() + pos + qlen, HL_MATCH)
(src/Bolt.cpp:779). A fill past the end would be C++ UB; the model
clips, which coincides with the code whenever pos + qlen ≤ renderLen
(true for every row reachable in the claims). -/
def overlayHl (renderLen pos qlen : Nat) : List HL :=
  (List.range renderLen).map
    (fun j => if pos ≤ j ∧ j < pos + qlen then HL.hmatch else HL.normal)

/-- The scan loop of editorFindCallback (src/Bolt.cpp:761); `fuel` is
the remaining iteration count, E.rows.size() at entry. -/
def findLoop (E : EditorConfig) (st : FindState) (query : List Char)
    (current : Int) (fuel : Nat) : EditorConfig × FindState :=
  match fuel with
  | 0 => (E, st)
  | fuel + 1 =>
    let cur1 := current + st.direction
    let cur2 := if cur1 = -1 then (E.rows.length : Int) - 1
                else if cur1 = (E.rows.length : Int) then 0 else cur1
    let row := E.rows.getD cur2.toNat default
    match strFind row.chars query with
    | some pos =>
      ({ E with cy := cur2, cx := (pos : Int), rowoff := (E.rows.length : Int),
                rows := listSet E.rows cur2.toNat
                  { row with hl := overlayHl row.render.length pos query.length } },
       { st with last_match := cur2, saved_hl_line := cur2, saved_hl := some row.hl })
    | none => findLoop E st query cur2 fuel

/-- editorFindCallback (src/Bolt.cpp:731); the static locals are
threaded through FindState. `key` is the int key code (13 is the
carriage return, 27 the escape byte, 1000–1003 the arrows). -/
def editorFindCallback (E : EditorConfig) (st : FindState) (query : List Char)
    (key : Int) : EditorConfig × FindState :=
  let restored :=
    match st.saved_hl with
    | some h =>
      let row2 := { (E.rows.getD st.saved_hl_line.toNat default) with hl := h }
      ({ E with rows := listSet E.rows st.saved_hl_line.toNat row2 },
       { st with saved_hl := none })
    | none => (E, st)
  let E1 := restored.1
  let st1 := restored.2
  if key = 13 ∨ key = 27 then
    (E1, { st1 with last_match := -1, direction := 1 })
  else
    let st2 :=
      if key = ARROW_RIGHT ∨ key = ARROW_DOWN then { st1 with direction := 1 }
      else if key = ARROW_LEFT ∨ key = ARROW_UP then { st1 with direction := -1 }
      else { st1 with last_match := -1, direction := 1 }
    let st3 := if st2.last_match = -1 then { st2 with direction := 1 } else st2
    findLoop E1 st3 query st3.last_match E1.rows.length

/-! ### Helper lemmas -/

lemma mem_listInsertIdx : ∀ (l : List α) (n : Nat) (a x : α),
    x ∈ listInsertIdx l n a → x = a ∨ x ∈ l := by
  intro l
  induction l with
  | nil =>
    intro n a x h
    cases n with
    | zero => simp [listInsertIdx] at h; exact Or.inl h
    | succ n => simp [listInsertIdx] at h
  | cons y ys ih =>
    intro n a x h
    cases n with
    | zero =>
      simp [listInsertIdx] at h
      rcases h with h | h | h
      · exact Or.inl h
      · exact Or.inr (by simp [h])
      · exact Or.inr (by simp [h])
    | succ n =>
      simp only [listInsertIdx, List.mem_cons] at h
      rcases h with h | h
      · exact Or.inr (by simp [h])
      · rcases ih n a x h with h | h
        · exact Or.inl h
        · exact Or.inr (by simp [h])

lemma mem_listSet : ∀ (l : List α) (n : Nat) (a x : α),
    x ∈ listSet l n a → x = a ∨ x ∈ l := by
  intro l
  induction l with
  | nil => intro n a x h; simp [listSet] at h
  | cons y ys ih =>
    intro n a x h
    cases n with
    | zero =>
      simp only [listSet, List.mem_cons] at h
      rcases h with h | h
      · exact Or.inl h
      · exact Or.inr (by simp [h])
    | succ n =>
      simp only [listSet, List.mem_cons] at h
      rcases h with h | h
      · exact Or.inr (by simp [h])
      · rcases ih n a x h with h | h
        · exact Or.inl h
        · exact Or.inr (by simp [h])

lemma mem_listEraseIdx : ∀ (l : List α) (n : Nat) (x : α),
    x ∈ listEraseIdx l n → x ∈ l := by
  intro l
  induction l with
  | nil => intro n x h; simp [listEraseIdx] at h
  | cons y ys ih =>
    intro n x h
    cases n with
    | zero => simp only [listEraseIdx] at h; exact List.mem_cons_of_mem y h
    | succ n =>
      simp only [listEraseIdx, List.mem_cons] at h
      rcases h with h | h
      · simp [h]
      · exact List.mem_cons_of_mem y (ih n x h)

lemma cxToRxLoop_zero : ∀ (chars : List Char) (rx : Nat), cxToRxLoop chars 0 rx = rx := by
  intro chars rx
  cases chars <;> rfl

lemma syntaxLoop_cons_string (syn : Option EditorSyntax) (kws : List (List Char))
    (fuel : Nat) (ps : Bool) (q : Char) (ph : HL) (c : Char) (rest : List Char) :
    syntaxLoop syn kws (fuel + 1) ps (some q) ph (c :: rest) =
      if commentHere syn (some q) (c :: rest) then
        List.replicate (c :: rest).length HL.comment
      else
        HL.hstring ::
          syntaxLoop syn kws fuel true (if c = q then none else some q) HL.hstring rest := by
  rfl

lemma syntaxLoop_cons_none (syn : Option EditorSyntax) (kws : List (List Char))
    (fuel : Nat) (ps : Bool) (ph : HL) (c : Char) (rest : List Char) :
    syntaxLoop syn kws (fuel + 1) ps none ph (c :: rest) =
      if commentHere syn none (c :: rest) then
        List.replicate (c :: rest).length HL.comment
      else if c = '"' ∨ c = '\'' then
        HL.hstring :: syntaxLoop syn kws fuel ps (some c) HL.hstring rest
      else if (c.isDigit ∧ (ps ∨ ph = HL.number)) ∨ (c = '.' ∧ ph = HL.number) then
        HL.number :: syntaxLoop syn kws fuel false none HL.number rest
      else
        match (if ps then findKeyword kws (c :: rest) else none) with
        | some (klen, color) =>
          if klen = 0 then
            HL.normal :: syntaxLoop syn kws fuel (is_separator c) none HL.normal rest
          else
            List.replicate klen color ++
              syntaxLoop syn kws fuel false none color ((c :: rest).drop klen)
        | none =>
          HL.normal :: syntaxLoop syn kws fuel (is_separator c) none HL.normal rest := by
  rfl

lemma findKeyword_le : ∀ (kws : List (List Char)) (suff : List Char) (klen : Nat) (color : HL),
    findKeyword kws suff = some (klen, color) → klen ≤ suff.length := by
  intro kws
  induction kws with
  | nil => intro suff klen color h; simp [findKeyword] at h
  | cons kw rest ih =>
    intro suff klen color h
    unfold findKeyword at h
    split at h
    · rename_i hc
      simp only [Option.some.injEq, Prod.mk.injEq] at h
      exact h.1 ▸ hc.1
    · exact ih suff klen color h

lemma syntaxLoop_length : ∀ (fuel : Nat) (syn : Option EditorSyntax) (kws : List (List Char))
    (ps : Bool) (ins : Option Char) (ph : HL) (suff : List Char),
    (syntaxLoop syn kws fuel ps ins ph suff).length = suff.length := by
  intro fuel
  induction fuel with
  | zero => intro syn kws ps ins ph suff; simp [syntaxLoop]
  | succ fuel ih =>
    intro syn kws ps ins ph suff
    cases suff with
    | nil => rfl
    | cons c rest =>
      cases ins with
      | some q =>
        rw [syntaxLoop_cons_string]
        split
        · simp
        · simp [ih]
      | none =>
        rw [syntaxLoop_cons_none]
        split
        · simp
        · split
          · simp [ih]
          · split
            · simp [ih]
            · rcases hk : (if ps then findKeyword kws (c :: rest) else none) with _ | ⟨klen, color⟩
              · simp only [hk]
                simp [ih]
              · have hle : klen ≤ (c :: rest).length := by
                  cases ps with
                  | false => simp at hk
                  | true => exact findKeyword_le kws (c :: rest) klen color (by simpa using hk)
                simp only [hk]
                split
                · simp [ih]
                · simp only [List.length_append, List.length_replicate, ih, List.length_drop]
                  simp at hle ⊢
                  omega

lemma editorUpdateSyntax_length (syn : Option EditorSyntax) (render : List Char) :
    (editorUpdateSyntax syn render).length = render.length := by
  unfold editorUpdateSyntax
  exact syntaxLoop_length _ _ _ _ _ _ _

lemma editorUpdateRow_sync (syn : Option EditorSyntax) (row : ERow) :
    (editorUpdateRow syn row).render.length = (editorUpdateRow syn row).hl.length := by
  simp [editorUpdateRow, editorUpdateSyntax_length]

/-! ### C7: tab expansion and the raw-length edge case -/

lemma cxToRxLoop_full : ∀ (chars : List Char) (rx : Nat),
    cxToRxLoop chars chars.length rx = rx + (renderLoop chars rx).length := by
  intro chars
  induction chars with
  | nil => intro rx; simp [cxToRxLoop, renderLoop]
  | cons c rest ih =>
    intro rx
    rw [List.length_cons]
    by_cases hc : c = '\t'
    · have harg : rx + (KILO_TAB_STOP - 1) - rx % KILO_TAB_STOP + 1 = rx + tabPad rx := by
        have h8 : rx % KILO_TAB_STOP < KILO_TAB_STOP := Nat.mod_lt rx (by decide)
        unfold tabPad KILO_TAB_STOP at *
        omega
      rw [show cxToRxLoop (c :: rest) (rest.length + 1) rx =
          cxToRxLoop rest rest.length (rx + (KILO_TAB_STOP - 1) - rx % KILO_TAB_STOP + 1) by
            simp [cxToRxLoop, hc]]
      rw [show renderLoop (c :: rest) rx =
          List.replicate (tabPad rx) ' ' ++ renderLoop rest (rx + tabPad rx) by
            simp [renderLoop, hc]]
      rw [harg, ih]
      simp only [List.length_append, List.length_replicate]
      omega
    · rw [show cxToRxLoop (c :: rest) (rest.length + 1) rx = cxToRxLoop rest rest.length (rx + 1) by
            simp [cxToRxLoop, hc]]
      rw [show renderLoop (c :: rest) rx = c :: renderLoop rest (rx + 1) by
            simp [renderLoop, hc]]
      rw [ih]
      simp only [List.length_cons]
      omega

/-- C7: with tab stop 8 the row "a\tb" renders to "a" followed by seven
spaces and "b" (rendered length 9), editorRowCxToRx maps raw column 1
to rendered column 1 and raw column 2 to rendered column 8; and for
every row that has been brought in sync by editorUpdateRow,
editorRowCxToRx at raw column len(chars) returns the rendered length
(the cx == len(chars) edge case is total and exact, it does not fail). -/
theorem tab_expansion_cxToRx_full :
    renderLoop ['a', '\t', 'b'] 0 =
      ['a', ' ', ' ', ' ', ' ', ' ', ' ', ' ', 'b'] ∧
    (renderLoop ['a', '\t', 'b'] 0).length = 9 ∧
    editorRowCxToRx (mkRow none ['a', '\t', 'b']) 1 = 1 ∧
    editorRowCxToRx (mkRow none ['a', '\t', 'b']) 2 = 8 ∧
    ∀ (syn : Option EditorSyntax) (row : ERow),
      editorRowCxToRx (editorUpdateRow syn row) (editorUpdateRow syn row).chars.length =
        (editorUpdateRow syn row).render.length := by
  refine ⟨by decide, by decide, by decide, by decide, ?_⟩
  intro syn row
  show cxToRxLoop row.chars row.chars.length 0 = (renderLoop row.chars 0).length
  rw [cxToRxLoop_full]
  omega

/-! ### C9: monotonicity of the raw-to-rendered mapping -/

lemma cxToRxLoop_le_start : ∀ (chars : List Char) (cx rx : Nat), rx ≤ cxToRxLoop chars cx rx := by
  intro chars
  induction chars with
  | nil => intro cx rx; cases cx <;> simp [cxToRxLoop]
  | cons c rest ih =>
    intro cx rx
    cases cx with
    | zero => simp [cxToRxLoop]
    | succ cx =>
      by_cases hc : c = '\t'
      · calc rx ≤ rx + (KILO_TAB_STOP - 1) - rx % KILO_TAB_STOP + 1 := by
              have h8 : rx % KILO_TAB_STOP < KILO_TAB_STOP := Nat.mod_lt rx (by decide)
              unfold KILO_TAB_STOP at *
              omega
          _ ≤ cxToRxLoop rest cx (rx + (KILO_TAB_STOP - 1) - rx % KILO_TAB_STOP + 1) := ih _ _
          _ = cxToRxLoop (c :: rest) (cx + 1) rx := by simp [cxToRxLoop, hc]
      · calc rx ≤ rx + 1 := by omega
          _ ≤ cxToRxLoop rest cx (rx + 1) := ih _ _
          _ = cxToRxLoop (c :: rest) (cx + 1) rx := by simp [cxToRxLoop, hc]

lemma cxToRxLoop_succ_ge : ∀ (chars : List Char) (cx rx : Nat),
    cxToRxLoop chars cx rx ≤ cxToRxLoop chars (cx + 1) rx := by
  intro chars
  induction chars with
  | nil => intro cx rx; cases cx <;> simp [cxToRxLoop]
  | cons c rest ih =>
    intro cx rx
    cases cx with
    | zero =>
      show rx ≤ cxToRxLoop (c :: rest) 1 rx
      by_cases hc : c = '\t'
      · rw [show cxToRxLoop (c :: rest) 1 rx =
            cxToRxLoop rest 0 (rx + (KILO_TAB_STOP - 1) - rx % KILO_TAB_STOP + 1) by
              simp [cxToRxLoop, hc]]
        exact le_trans (by
          have h8 : rx % KILO_TAB_STOP < KILO_TAB_STOP := Nat.mod_lt rx (by decide)
          unfold KILO_TAB_STOP at *
          omega) (cxToRxLoop_le_start rest 0 _)
      · rw [show cxToRxLoop (c :: rest) 1 rx = cxToRxLoop rest 0 (rx + 1) by
              simp [cxToRxLoop, hc]]
        exact le_trans (by omega) (cxToRxLoop_le_start rest 0 _)
    | succ cx =>
      by_cases hc : c = '\t'
      · simpa [cxToRxLoop, hc] using ih cx (rx + (KILO_TAB_STOP - 1) - rx % KILO_TAB_STOP + 1)
      · simpa [cxToRxLoop, hc] using ih cx (rx + 1)

lemma cxToRxLoop_add_ge : ∀ (k : Nat) (chars : List Char) (cx rx : Nat),
    cxToRxLoop chars cx rx ≤ cxToRxLoop chars (cx + k) rx := by
  intro k
  induction k with
  | zero => intro chars cx rx; simp
  | succ k ih =>
    intro chars cx rx
    calc cxToRxLoop chars cx rx ≤ cxToRxLoop chars (cx + k) rx := ih chars cx rx
      _ ≤ cxToRxLoop chars (cx + k + 1) rx := cxToRxLoop_succ_ge chars (cx + k) rx

/-- C9: editorRowCxToRx row 0 = 0 for every row, and for every row and
all raw columns cx1 ≤ cx2 ≤ len(chars) the mapping is monotonically
non-decreasing. -/
theorem cxToRx_monotone_zero :
    (∀ row : ERow, editorRowCxToRx row 0 = 0) ∧
    ∀ (row : ERow) (cx1 cx2 : Nat), cx1 ≤ cx2 → cx2 ≤ row.chars.length →
      editorRowCxToRx row cx1 ≤ editorRowCxToRx row cx2 := by
  constructor
  · intro row
    exact cxToRxLoop_zero row.chars 0
  · intro row cx1 cx2 h12 h2len
    have : cx2 = cx1 + (cx2 - cx1) := by omega
    rw [this]
    exact cxToRxLoop_add_ge (cx2 - cx1) row.chars cx1 0

theorem cxToRx_monotone_zero_witness :
    editorRowCxToRx (mkRow none ['a', '\t', 'b']) 1 ≤
      editorRowCxToRx (mkRow none ['a', '\t', 'b']) 2 :=
  cxToRx_monotone_zero.2 (mkRow none ['a', '\t', 'b']) 1 2 (by decide) (by decide)

/-! ### C8: keyword boundary detection -/

/-- A grammar whose keyword list holds "int" flagged primary (no
trailing pipe), as in the claim. -/
def gInt : EditorSyntax :=
  { filetype := ['t'], extensions := [], keywords := [['i', 'n', 't']],
    singleline_comment_start := ['/', '/'], flags := 0 }

/-- C8: with keyword "int" flagged primary, "integer" gets no Keyword1
position (no trailing separator after the candidate), while "int x"
gets Keyword1 at positions 0, 1 and 2. -/
theorem keyword_boundary_int :
    (∀ h ∈ editorUpdateSyntax (some gInt) ['i', 'n', 't', 'e', 'g', 'e', 'r'],
       h ≠ HL.keyword1) ∧
    (editorUpdateSyntax (some gInt) ['i', 'n', 't', ' ', 'x']).take 3 =
      [HL.keyword1, HL.keyword1, HL.keyword1] := by
  constructor
  · decide
  · decide

/-! ### C10: out-of-range row insert/delete are silent no-ops -/

/-- C10: editorInsertRow with an index outside [0, len(rows)] and
editorDelRow with an index outside [0, len(rows)) leave the whole
editor state unchanged. -/
theorem insert_delete_row_out_of_range_noop :
    (∀ (E : EditorConfig) (at' : Int) (s : List Char),
       (at' < 0 ∨ at' > (E.rows.length : Int)) → editorInsertRow E at' s = E) ∧
    (∀ (E : EditorConfig) (at' : Int),
       (at' < 0 ∨ at' ≥ (E.rows.length : Int)) → editorDelRow E at' = E) := by
  constructor
  · intro E at' s h
    unfold editorInsertRow
    rw [if_pos h]
  · intro E at' h
    unfold editorDelRow
    rw [if_pos h]

theorem insert_delete_row_out_of_range_noop_witness :
    editorInsertRow emptyEditor (-1) ['a'] = emptyEditor ∧
    editorDelRow emptyEditor 0 = emptyEditor :=
  ⟨insert_delete_row_out_of_range_noop.1 emptyEditor (-1) ['a'] (by decide),
   insert_delete_row_out_of_range_noop.2 emptyEditor 0 (by decide)⟩

/-! ### C1: classification with no grammar selected -/

lemma syntaxLoop_none_plain : ∀ (fuel : Nat) (ps : Bool) (suff : List Char),
    (∀ c ∈ suff, c.isDigit = false ∧ c ≠ '"' ∧ c ≠ '\'') →
    syntaxLoop none [] fuel ps none HL.normal suff = List.replicate suff.length HL.normal := by
  intro fuel
  induction fuel with
  | zero => intro ps suff h; rfl
  | succ fuel ih =>
    intro ps suff h
    cases suff with
    | nil => rfl
    | cons c rest =>
      have hc := h c (List.mem_cons_self c rest)
      rw [syntaxLoop_cons_none]
      rw [if_neg (by simp [commentHere])]
      rw [if_neg (by simp [hc.2.1, hc.2.2])]
      rw [if_neg (by simp [hc.1])]
      have hkw : (if ps then findKeyword [] (c :: rest) else none) = none := by
        cases ps <;> simp [findKeyword]
      rw [hkw]
      show HL.normal :: syntaxLoop none [] fuel (is_separator c) none HL.normal rest = _
      rw [ih (is_separator c) rest (fun d hd => h d (List.mem_cons_of_mem c hd))]
      rw [List.length_cons, List.replicate_succ]

/-- C1 counterexample: with no grammar, the rendered text "1" is
classified Number, not Normal — the number (and string) rules are not
gated by the grammar. -/
theorem updateSyntax_no_grammar_digit_cex :
    editorUpdateSyntax none ['1'] = [HL.number] ∧
    editorUpdateSyntax none ['1'] ≠ List.replicate ([('1' : Char)] : List Char).length HL.normal := by
  constructor
  · decide
  · decide

/-- C1 amended: with no grammar the comment and keyword rules are
disabled, but the number and string rules still run; every rendered
text containing no digit and no quote character is classified
all-Normal. -/
theorem updateSyntax_no_grammar_plain_all_normal :
    ∀ render : List Char,
      (∀ c ∈ render, c.isDigit = false ∧ c ≠ '"' ∧ c ≠ '\'') →
      editorUpdateSyntax none render = List.replicate render.length HL.normal := by
  intro render h
  unfold editorUpdateSyntax
  exact syntaxLoop_none_plain render.length true render h

theorem updateSyntax_no_grammar_plain_witness :
    editorUpdateSyntax none ['a', 'b', ' '] = List.replicate 3 HL.normal :=
  updateSyntax_no_grammar_plain_all_normal ['a', 'b', ' '] (by decide)

/-! ### C5: every edit operation keeps len(render) = len(hl) on all rows -/

def rowsLenOk (rows : List ERow) : Prop :=
  ∀ r ∈ rows, r.render.length = r.hl.length

lemma rowsLenOk_listSet {rows : List ERow} (h : rowsLenOk rows) {row2 : ERow}
    (h2 : row2.render.length = row2.hl.length) (i : Nat) :
    rowsLenOk (listSet rows i row2) := by
  intro r hr
  rcases mem_listSet rows i row2 r hr with rfl | hm
  · exact h2
  · exact h r hm

lemma rowsLenOk_insertRow {E : EditorConfig} (h : rowsLenOk E.rows) (at' : Int)
    (s : List Char) : rowsLenOk (editorInsertRow E at' s).rows := by
  unfold editorInsertRow
  split
  · exact h
  · intro r hr
    rcases mem_listInsertIdx E.rows at'.toNat (mkRow E.syn s) r hr with rfl | hm
    · exact editorUpdateRow_sync E.syn _
    · exact h r hm

lemma rowsLenOk_delRow {E : EditorConfig} (h : rowsLenOk E.rows) (at' : Int) :
    rowsLenOk (editorDelRow E at').rows := by
  unfold editorDelRow
  split
  · exact h
  · intro r hr
    exact h r (mem_listEraseIdx E.rows at'.toNat r hr)

lemma rowsLenOk_rowInsertChar {E : EditorConfig} (h : rowsLenOk E.rows) (i : Nat)
    (at' : Int) (c : Char) : rowsLenOk (editorRowInsertChar E i at' c).rows := by
  unfold editorRowInsertChar
  exact rowsLenOk_listSet h (editorUpdateRow_sync E.syn _) i

lemma rowsLenOk_rowAppendString {E : EditorConfig} (h : rowsLenOk E.rows) (i : Nat)
    (s : List Char) : rowsLenOk (editorRowAppendString E i s).rows := by
  unfold editorRowAppendString
  exact rowsLenOk_listSet h (editorUpdateRow_sync E.syn _) i

lemma rowsLenOk_rowDelChar {E : EditorConfig} (h : rowsLenOk E.rows) (i : Nat)
    (at' : Int) : rowsLenOk (editorRowDelChar E i at').rows := by
  simp only [editorRowDelChar]
  split
  · exact h
  · exact rowsLenOk_listSet h (editorUpdateRow_sync E.syn _) i

lemma rowsLenOk_insertChar {E : EditorConfig} (h : rowsLenOk E.rows) (c : Char) :
    rowsLenOk (editorInsertChar E c).rows := by
  have h1 : rowsLenOk (if E.cy = (E.rows.length : Int) then
      editorInsertRow E (E.rows.length : Int) [] else E).rows := by
    split
    · exact rowsLenOk_insertRow h _ _
    · exact h
  exact rowsLenOk_rowInsertChar h1 _ _ _

lemma rowsLenOk_insertNewline {E : EditorConfig} (h : rowsLenOk E.rows) :
    rowsLenOk (editorInsertNewline E).rows := by
  simp only [editorInsertNewline]
  split
  · exact rowsLenOk_insertRow h _ _
  · exact rowsLenOk_insertRow (rowsLenOk_listSet h (editorUpdateRow_sync E.syn _) _) _ _

lemma rowsLenOk_delChar {E : EditorConfig} (h : rowsLenOk E.rows) :
    rowsLenOk (editorDelChar E).rows := by
  simp only [editorDelChar]
  split
  · exact h
  · split
    · exact h
    · split
      · exact rowsLenOk_rowDelChar h _ _
      · show rowsLenOk (editorDelRow (editorRowAppendString { E with cx := ((E.rows.getD (E.cy - 1).toNat default).chars.length : Int) } (E.cy - 1).toNat (E.rows.getD E.cy.toNat default).chars) E.cy).rows
        exact rowsLenOk_delRow (@rowsLenOk_rowAppendString { E with cx := ((E.rows.getD (E.cy - 1).toNat default).chars.length : Int) } h (E.cy - 1).toNat (E.rows.getD E.cy.toNat default).chars) E.cy

/-- C5: each of the six edit operations (insert-character,
insert-newline, delete-before-cursor, insert-row, delete-row,
append-string-to-row) preserves len(render) = len(hl) on every row of
the document. -/
theorem editOps_preserve_render_hl_length :
    ∀ E : EditorConfig, rowsLenOk E.rows →
      (∀ c : Char, rowsLenOk (editorInsertChar E c).rows) ∧
      rowsLenOk (editorInsertNewline E).rows ∧
      rowsLenOk (editorDelChar E).rows ∧
      (∀ (at' : Int) (s : List Char), rowsLenOk (editorInsertRow E at' s).rows) ∧
      (∀ at' : Int, rowsLenOk (editorDelRow E at').rows) ∧
      (∀ (i : Nat) (s : List Char), rowsLenOk (editorRowAppendString E i s).rows) :=
  fun E h =>
    ⟨fun c => rowsLenOk_insertChar h c, rowsLenOk_insertNewline h, rowsLenOk_delChar h,
     fun at' s => rowsLenOk_insertRow h at' s, fun at' => rowsLenOk_delRow h at',
     fun i s => rowsLenOk_rowAppendString h i s⟩

theorem editOps_preserve_render_hl_length_witness :
    rowsLenOk (editorInsertChar emptyEditor 'a').rows :=
  (editOps_preserve_render_hl_length emptyEditor
    (by intro r hr; simp [emptyEditor] at hr)).1 'a'

/-! ### C6: load/serialize round trip -/

lemma listInsertIdx_at_length : ∀ (l : List α) (a : α),
    listInsertIdx l l.length a = l ++ [a] := by
  intro l
  induction l with
  | nil => intro a; rfl
  | cons x xs ih =>
    intro a
    show x :: listInsertIdx xs xs.length a = x :: (xs ++ [a])
    rw [ih]

lemma editorInsertRow_at_end (E : EditorConfig) (s : List Char) :
    editorInsertRow E (E.rows.length : Int) s =
      { E with rows := E.rows ++ [mkRow E.syn s], dirty := true } := by
  unfold editorInsertRow
  rw [if_neg (by simp)]
  rw [show ((E.rows.length : Int)).toNat = E.rows.length from by simp]
  rw [listInsertIdx_at_length]

lemma openLines_rows : ∀ (lines : List (List Char)) (E : EditorConfig),
    (editorOpenLines E lines).rows =
      E.rows ++ lines.map (fun l => mkRow E.syn (stripCR l)) := by
  intro lines
  induction lines with
  | nil => intro E; simp [editorOpenLines]
  | cons l rest ih =>
    intro E
    have h1 : (editorOpenLines E (l :: rest)).rows =
        (editorOpenLines (editorInsertRow E (E.rows.length : Int) (stripCR l)) rest).rows := rfl
    rw [h1, ih, editorInsertRow_at_end]
    simp

lemma rowsToString_map_mkRow : ∀ (lines : List (List Char)) (syn : Option EditorSyntax),
    editorRowsToString (lines.map (fun l => mkRow syn l)) = joinedWithNL lines := by
  intro lines
  induction lines with
  | nil => intro syn; rfl
  | cons l rest ih =>
    intro syn
    have hc : (mkRow syn l).chars = l := rfl
    show (mkRow syn l).chars ++ '\n' :: editorRowsToString (rest.map (fun l => mkRow syn l)) =
      l ++ '\n' :: joinedWithNL rest
    rw [hc, ih]

lemma stripCR_eq (l : List Char) (h : l.getLast? ≠ some '\r') : stripCR l = l := by
  unfold stripCR
  rw [if_neg h]

/-- C6 counterexample: editorOpen strips a trailing carriage return, so
the line "a\r" loads as "a" and serializes to "a\n", not to the
original bytes joined with a trailing newline. -/
theorem roundtrip_load_serialize_cr_cex :
    editorRowsToString (editorOpenLines emptyEditor [['a', '\r']]).rows = ['a', '\n'] ∧
    editorRowsToString (editorOpenLines emptyEditor [['a', '\r']]).rows ≠
      joinedWithNL [['a', '\r']] := by
  constructor
  · decide
  · decide

/-- C6 amended: for every sequence of lines none of which ends in a
carriage-return byte, loading an empty document from the lines and
serializing reproduces the lines joined by a newline with one trailing
newline, regardless of the bytes (including tabs) the lines contain. -/
theorem roundtrip_load_serialize_amended (E : EditorConfig) (lines : List (List Char))
    (hE : E.rows = []) (hcr : ∀ l ∈ lines, l.getLast? ≠ some '\r') :
    editorRowsToString (editorOpenLines E lines).rows = joinedWithNL lines := by
  rw [openLines_rows, hE, List.nil_append]
  have hmap : lines.map (fun l => mkRow E.syn (stripCR l)) =
      lines.map (fun l => mkRow E.syn l) := by
    apply List.map_congr_left
    intro l hl
    rw [stripCR_eq l (hcr l hl)]
  rw [hmap, rowsToString_map_mkRow]

theorem roundtrip_load_serialize_witness :
    editorRowsToString (editorOpenLines emptyEditor [['a', '\t', 'b'], ['c']]).rows =
      joinedWithNL [['a', '\t', 'b'], ['c']] :=
  roundtrip_load_serialize_amended emptyEditor [['a', '\t', 'b'], ['c']] rfl (by decide)

/-! ### The search callback: C2, C3, C4 -/

lemma overlayHl_getD (n pos qlen j : Nat) (hj : j < n) :
    (overlayHl n pos qlen).getD j HL.normal =
      if pos ≤ j ∧ j < pos + qlen then HL.hmatch else HL.normal := by
  unfold overlayHl
  rw [List.getD_eq_getElem?_getD, List.getElem?_map, List.getElem?_range hj]
  rfl

/-- One scan step of findLoop from a fresh start (current = -1,
direction forward) over a non-empty row list whose first row contains
the query: the match is recorded on row 0. -/
lemma findLoop_match_row0 (cx0 cy0 rx0 ro0 co0 : Int) (di0 : Bool)
    (sy0 : Option EditorSyntax) (r0 : ERow) (rest : List ERow)
    (lm shl : Int) (sh : Option (List HL)) (q : List Char) (p : Nat)
    (hfind : strFind r0.chars q = some p) :
    findLoop ⟨cx0, cy0, rx0, ro0, co0, di0, sy0, r0 :: rest⟩ ⟨lm, 1, shl, sh⟩ q (-1)
        (rest.length + 1) =
      (⟨(p : Int), 0, rx0, ((rest.length + 1 : Nat) : Int), co0, di0, sy0,
          listSet (r0 :: rest) 0 { r0 with hl := overlayHl r0.render.length p q.length }⟩,
       ⟨0, 1, 0, some r0.hl⟩) := by
  simp only [findLoop]
  norm_num
  simp [hfind]

/-- The row "1 foo" (its first byte is classified Number), no grammar. -/
def findDemoRow : ERow := mkRow none ['1', ' ', 'f', 'o', 'o']

def findDemoE1 : EditorConfig := { emptyEditor with rows := [findDemoRow] }

/-- C2 counterexample: on the match of "foo" in row "1 foo" (span
[2,5)), position 0 — outside the span — changes from Number to Normal:
the overlay resets the whole row, it does not keep positions outside
the span. -/
theorem findCallback_overlay_outside_span_cex :
    findDemoRow.hl.getD 0 HL.normal = HL.number ∧
    ((editorFindCallback findDemoE1 initialFindState ['f', 'o', 'o'] 102).1.rows.getD 0 default).hl.getD 0 HL.normal =
      HL.normal ∧
    HL.normal ≠ HL.number := by
  refine ⟨by decide, by decide, by decide⟩

/-- C2 amended: when the callback records a match on the first row (any
row content, fresh state, plain key), it saves the row's current
highlight sequence into the slot, and replaces the row's highlight with
the sequence that is Normal everywhere except the matched span, which
is Match — positions outside the span become Normal rather than keeping
their previous values. -/
theorem findCallback_match_saves_then_resets (E : EditorConfig) (st : FindState)
    (q : List Char) (key : Int) (r0 : ERow) (rest : List ERow) (p : Nat)
    (hs : st.saved_hl = none)
    (hk1 : ¬(key = 13 ∨ key = 27))
    (hk2 : ¬(key = ARROW_RIGHT ∨ key = ARROW_DOWN))
    (hk3 : ¬(key = ARROW_LEFT ∨ key = ARROW_UP))
    (hrows : E.rows = r0 :: rest)
    (hfind : strFind r0.chars q = some p) :
    (editorFindCallback E st q key).2.saved_hl = some r0.hl ∧
    (editorFindCallback E st q key).1.rows =
      listSet E.rows 0 { r0 with hl := overlayHl r0.render.length p q.length } ∧
    ∀ j, j < r0.render.length →
      (overlayHl r0.render.length p q.length).getD j HL.normal =
        if p ≤ j ∧ j < p + q.length then HL.hmatch else HL.normal := by
  obtain ⟨Ecx, Ecy, Erx, Ero, Eco, Edi, Esy, Erows⟩ := E
  replace hrows : Erows = r0 :: rest := hrows
  subst hrows
  obtain ⟨lm, dir, shl, sh⟩ := st
  replace hs : sh = none := hs
  subst hs
  have hred : editorFindCallback ⟨Ecx, Ecy, Erx, Ero, Eco, Edi, Esy, r0 :: rest⟩
      ⟨lm, dir, shl, none⟩ q key =
      findLoop ⟨Ecx, Ecy, Erx, Ero, Eco, Edi, Esy, r0 :: rest⟩ ⟨-1, 1, shl, none⟩ q (-1)
        (rest.length + 1) := by
    simp [editorFindCallback, hk1, hk2, hk3]
  rw [hred, findLoop_match_row0 Ecx Ecy Erx Ero Eco Edi Esy r0 rest (-1) shl none q p hfind]
  refine ⟨rfl, rfl, ?_⟩
  intro j hj
  exact overlayHl_getD r0.render.length p q.length j hj

theorem findCallback_match_saves_witness :
    (editorFindCallback findDemoE1 initialFindState ['f', 'o', 'o'] 102).2.saved_hl = some findDemoRow.hl ∧
    (editorFindCallback findDemoE1 initialFindState ['f', 'o', 'o'] 102).1.rows =
      listSet findDemoE1.rows 0
        { findDemoRow with
            hl := overlayHl findDemoRow.render.length 2 (['f', 'o', 'o'] : List Char).length } ∧
    ∀ j, j < findDemoRow.render.length →
      (overlayHl findDemoRow.render.length 2 (['f', 'o', 'o'] : List Char).length).getD j
          HL.normal =
        if 2 ≤ j ∧ j < 2 + (['f', 'o', 'o'] : List Char).length then HL.hmatch
        else HL.normal :=
  findCallback_match_saves_then_resets findDemoE1
    initialFindState
    ['f', 'o', 'o'] 102 findDemoRow [] 2 rfl (by decide) (by decide) (by decide) rfl
    (by decide)

def findDemoE3 : EditorConfig :=
  { emptyEditor with rows := [mkRow none ['f', 'o', 'o'], mkRow none ['f', 'o', 'o']] }

/-- C3 counterexample: fresh state (no prior match), backward key,
query present in every row of ["foo", "foo"]: the claim says the first
row examined is the last row (so the match would be row 1); the code
matches row 0. -/
theorem findCallback_fresh_backward_row0_cex :
    (editorFindCallback findDemoE3 initialFindState ['f', 'o', 'o'] ARROW_LEFT).1.cy = 0 ∧
    (editorFindCallback findDemoE3 initialFindState ['f', 'o', 'o'] ARROW_LEFT).1.cy ≠ 1 := by
  refine ⟨by decide, by decide⟩

/-- C3 amended: with no prior match recorded the code forces the
direction to forward (line 758), so a backward navigation event behaves
exactly like a forward one and the scan begins at row 0: if the query
occurs in row 0, that is the match. -/
theorem findCallback_fresh_backward_forced_forward (E : EditorConfig) (st : FindState)
    (q : List Char) (r0 : ERow) (rest : List ERow) (p : Nat)
    (hlm : st.last_match = -1) (hs : st.saved_hl = none)
    (hrows : E.rows = r0 :: rest) (hfind : strFind r0.chars q = some p) :
    editorFindCallback E st q ARROW_LEFT = editorFindCallback E st q ARROW_RIGHT ∧
    (editorFindCallback E st q ARROW_LEFT).1.cy = 0 := by
  obtain ⟨Ecx, Ecy, Erx, Ero, Eco, Edi, Esy, Erows⟩ := E
  replace hrows : Erows = r0 :: rest := hrows
  subst hrows
  obtain ⟨lm, dir, shl, sh⟩ := st
  replace hlm : lm = -1 := hlm
  replace hs : sh = none := hs
  subst hlm
  subst hs
  have hL : editorFindCallback ⟨Ecx, Ecy, Erx, Ero, Eco, Edi, Esy, r0 :: rest⟩
      ⟨-1, dir, shl, none⟩ q ARROW_LEFT =
      findLoop ⟨Ecx, Ecy, Erx, Ero, Eco, Edi, Esy, r0 :: rest⟩ ⟨-1, 1, shl, none⟩ q (-1)
        (rest.length + 1) := by
    simp [editorFindCallback, ARROW_LEFT, ARROW_RIGHT, ARROW_UP, ARROW_DOWN]
  have hR : editorFindCallback ⟨Ecx, Ecy, Erx, Ero, Eco, Edi, Esy, r0 :: rest⟩
      ⟨-1, dir, shl, none⟩ q ARROW_RIGHT =
      findLoop ⟨Ecx, Ecy, Erx, Ero, Eco, Edi, Esy, r0 :: rest⟩ ⟨-1, 1, shl, none⟩ q (-1)
        (rest.length + 1) := by
    simp [editorFindCallback, ARROW_LEFT, ARROW_RIGHT, ARROW_UP, ARROW_DOWN]
  refine ⟨by rw [hL, hR], ?_⟩
  rw [hL, findLoop_match_row0 Ecx Ecy Erx Ero Eco Edi Esy r0 rest (-1) shl none q p hfind]

theorem findCallback_fresh_backward_witness :
    editorFindCallback findDemoE3 initialFindState ['f', 'o', 'o'] ARROW_LEFT =
      editorFindCallback findDemoE3 initialFindState ['f', 'o', 'o'] ARROW_RIGHT ∧
    (editorFindCallback findDemoE3 initialFindState ['f', 'o', 'o'] ARROW_LEFT).1.cy = 0 :=
  findCallback_fresh_backward_forced_forward findDemoE3
    initialFindState
    ['f', 'o', 'o'] (mkRow none ['f', 'o', 'o']) [mkRow none ['f', 'o', 'o']] 0
    rfl rfl rfl (by decide)

def findDemoE4 : EditorConfig :=
  { emptyEditor with rows := [mkRow none ['f', 'o', 'o', ' ', 'b', 'a', 'r'],
                              mkRow none ['b', 'a', 'z', ' ', 'f', 'o', 'o']] }

def findDemoStep1 : EditorConfig × FindState :=
  editorFindCallback findDemoE4 initialFindState ['f', 'o', 'o'] 102

def findDemoStep2 : EditorConfig × FindState :=
  editorFindCallback findDemoStep1.1 findDemoStep1.2 ['f', 'o', 'o'] ARROW_DOWN

def findDemoSaved : FindState :=
  { last_match := 0, direction := 1, saved_hl_line := 0,
    saved_hl := some (List.replicate 7 HL.normal) }

/-- C4: on every event with a saved overlay, the cancel path restores
the saved row's highlight sequence bit-for-bit from the slot and clears
the slot (no new match is computed); and in the concrete scenario
rows ["foo bar", "baz foo"], query "foo": the first forward search
matches row 0 column 0 (span marked Match), and the following forward
navigation event matches row 1 column 4 with row 0's highlight sequence
restored bit-for-bit to its pre-overlay value. -/
theorem findCallback_restores_overlay :
    (∀ (E : EditorConfig) (st : FindState) (q : List Char) (h : List HL),
       st.saved_hl = some h →
       (editorFindCallback E st q 27).2 =
         { st with saved_hl := none, last_match := -1, direction := 1 } ∧
       (editorFindCallback E st q 27).1.rows =
         listSet E.rows st.saved_hl_line.toNat
           { E.rows.getD st.saved_hl_line.toNat default with hl := h }) ∧
    findDemoStep1.1.cy = 0 ∧
    findDemoStep1.1.cx = 0 ∧
    (findDemoStep1.1.rows.getD 0 default).hl =
      [HL.hmatch, HL.hmatch, HL.hmatch, HL.normal, HL.normal, HL.normal, HL.normal] ∧
    findDemoStep2.1.cy = 1 ∧
    findDemoStep2.1.cx = 4 ∧
    (findDemoStep2.1.rows.getD 0 default).hl = (findDemoE4.rows.getD 0 default).hl := by
  constructor
  · intro E st q h hs
    obtain ⟨lm, dir, shl, sh⟩ := st
    replace hs : sh = some h := hs
    subst hs
    constructor
    · simp [editorFindCallback]
    · simp [editorFindCallback]
  · refine ⟨by decide, by decide, by decide, by decide, by decide, by decide⟩

theorem findCallback_restores_overlay_witness :
    (editorFindCallback findDemoE4 findDemoSaved ['f', 'o', 'o'] 27).2 =
      { findDemoSaved with saved_hl := none, last_match := -1, direction := 1 } ∧
    (editorFindCallback findDemoE4 findDemoSaved ['f', 'o', 'o'] 27).1.rows =
      listSet findDemoE4.rows findDemoSaved.saved_hl_line.toNat
        { findDemoE4.rows.getD findDemoSaved.saved_hl_line.toNat default with
            hl := List.replicate 7 HL.normal } :=
  findCallback_restores_overlay.1 findDemoE4 findDemoSaved ['f', 'o', 'o']
    (List.replicate 7 HL.normal) rfl

theorem keyword_boundary_int_witness : HL.normal ≠ HL.keyword1 :=
  keyword_boundary_int.1 HL.normal (by decide)
